import Mathlib

/-!
Shallow embedding of the data-ingestion pipeline of `dashboard.py`
(file discovery, per-file loading, precise-time reconstruction, signal
cleaning, aggregation), together with theorems settling the frozen claims.

Modelling conventions:
* Timestamps are rationals (seconds since an arbitrary epoch); the external
  day-first datetime parser (`pd.to_datetime(..., errors="coerce")`) is
  modelled by each cell already carrying its parse result as `Option ℚ`
  (`none` = NaT).  Likewise `pd.to_numeric(..., errors="coerce")` results
  are carried as `Option ℚ` (`none` = NaN).
* Column labels are the labels after the whitespace-stripping step
  (`df.columns.str.strip()`, line 40 of the source).
* A dataframe row is a record holding the three required cells plus the
  remaining (extra) columns as an association list from label to cell text.
-/

namespace Dash

/-- File formats the loader dispatches on (`path.suffix.lower()`,
lines 32-37); `other` stands for any unrecognized extension. -/
inductive FileFormat
  | xlsx
  | xls
  | csv
  | other
deriving DecidableEq, Repr, Inhabited

/-- One parsed row of a source file: the coarse timestamp cell
(`STARTDATE`, as parsed by the day-first datetime conversion), the
frequency cell (`HZ`) and magnitude cell (`VPM`) (as coerced to numbers),
plus all remaining columns as label/text pairs. -/
structure RawRow where
  startdate : Option ℚ
  hz : Option ℚ
  vpm : Option ℚ
  extras : List (String × String)
deriving DecidableEq, Repr, Inhabited

/-- A candidate source file: its filename, its base name with the
extension stripped (`path.stem`), its format (from the extension), the
stripped column labels present in it, and its parsed rows. -/
structure SourceFile where
  name : String
  stem : String
  format : FileFormat
  columns : List String
  rows : List RawRow
deriving DecidableEq, Repr, Inhabited

/-- A row that survived `df.dropna(subset=["STARTDATE"])` (line 51): the
coarse timestamp is known to be present. -/
structure KeptRow where
  startdate : ℚ
  hz : Option ℚ
  vpm : Option ℚ
  extras : List (String × String)
deriving DecidableEq, Repr, Inhabited

/-- One row of the loader's output dataframe: coarse timestamp,
reconstructed `PRECISE_TIME`, cleaned `HZ`, `VPM`, the `SOURCE_FILE` tag
and the passthrough extra columns. -/
structure OutRow where
  startdate : ℚ
  preciseTime : ℚ
  hz : Option ℚ
  vpm : Option ℚ
  sourceFile : String
  extras : List (String × String)
deriving DecidableEq, Repr, Inhabited

/-- Dropping the rows whose `STARTDATE` failed to parse
(`pd.to_datetime(..., errors="coerce")` followed by
`df.dropna(subset=["STARTDATE"])`, lines 50-51). -/
def dropnaStartdate (rows : List RawRow) : List KeptRow :=
  rows.filterMap fun r => r.startdate.map fun t => ⟨t, r.hz, r.vpm, r.extras⟩

/-- Number of rows of `l` sharing the coarse timestamp `t`. -/
def countKey (t : ℚ) (l : List KeptRow) : Nat :=
  (l.filter fun r => r.startdate == t).length

/-- Accumulating pass of `df.groupby('STARTDATE').cumcount()` (line 62):
each row is paired with the number of earlier rows (those in `prev`)
sharing its coarse timestamp. -/
def cumcountAux (prev : List KeptRow) : List KeptRow → List (KeptRow × Nat)
  | [] => []
  | r :: rest => (r, countKey r.startdate prev) :: cumcountAux (prev ++ [r]) rest

/-- Pairs each row with its `sample_idx` (line 62): its 0-based position
among the rows sharing its coarse timestamp, in original row order. -/
def cumcount (l : List KeptRow) : List (KeptRow × Nat) :=
  cumcountAux [] l

/-- Column labels that the loader itself writes into the dataframe
(lines 62, 63, 65, 71); a pre-existing extra column with one of these
labels is overwritten.  `sample_idx` and `samples_in_min` are dropped at
line 73; `PRECISE_TIME` and `SOURCE_FILE` are represented by the
dedicated fields of `OutRow`. -/
def overwrittenCols : List String :=
  ["sample_idx", "samples_in_min", "PRECISE_TIME", "SOURCE_FILE"]

/-- Extra columns surviving to the loader's output: all except the ones
the loader itself writes. -/
def passthroughExtras (extras : List (String × String)) : List (String × String) :=
  extras.filter fun kv => !(overwrittenCols.contains kv.1)

/-- Builds one output row from a kept row paired with its `sample_idx`:
`PRECISE_TIME = STARTDATE + (sample_idx / samples_in_min) * 60` seconds
(lines 63-67), tagged with the file's stem (line 71). -/
def mkOutRow (stem : String) (kept : List KeptRow) (p : KeptRow × Nat) : OutRow :=
  { startdate := p.1.startdate
    preciseTime := p.1.startdate + ((p.2 : ℚ) / (countKey p.1.startdate kept : ℚ)) * 60
    hz := p.1.hz
    vpm := p.1.vpm
    sourceFile := stem
    extras := passthroughExtras p.1.extras }

/-- Precise-time reconstruction and tagging (lines 62-67, 71, 73),
before the `HZ` cleaning step. -/
def reconstructRows (stem : String) (kept : List KeptRow) : List OutRow :=
  (cumcount kept).map (mkOutRow stem kept)

/-- Latest valid value strictly before position `i` (`none` if every
earlier cell is missing). -/
def prevValid (vals : List (Option ℚ)) : Nat → Option (Nat × ℚ)
  | 0 => none
  | i + 1 =>
    match vals.getD i none with
    | some v => some (i, v)
    | none => prevValid vals i

/-- Earliest valid value at position `≥ j`, scanning at most `fuel`
positions. -/
def nextValidFrom (vals : List (Option ℚ)) : Nat → Nat → Option (Nat × ℚ)
  | _, 0 => none
  | j, fuel + 1 =>
    match vals.getD j none with
    | some v => some (j, v)
    | none => nextValidFrom vals (j + 1) fuel

/-- Earliest valid value strictly after position `i`. -/
def nextValid (vals : List (Option ℚ)) (i : Nat) : Option (Nat × ℚ) :=
  nextValidFrom vals (i + 1) (vals.length - (i + 1))

/-- Value assigned to position `i` by
`Series.interpolate(method="linear", limit_direction="both")` (line 70):
a present value is kept; a missing value with valid values on both sides
gets the linear interpolation between its nearest valid neighbours; a
missing value with a valid value on one side only gets that nearest
valid value; if the whole series is missing it stays missing. -/
def interpolateAt (vals : List (Option ℚ)) (i : Nat) : Option ℚ :=
  match vals.getD i none with
  | some v => some v
  | none =>
    match prevValid vals i, nextValid vals i with
    | some av, some bv =>
      some (av.2 + (bv.2 - av.2) * (((i : ℚ) - (av.1 : ℚ)) / ((bv.1 : ℚ) - (av.1 : ℚ))))
    | some av, none => some av.2
    | none, some bv => some bv.2
    | none, none => none

/-- The interpolated series, position by position. -/
def interpolateLinearBoth (vals : List (Option ℚ)) : List (Option ℚ) :=
  (List.range vals.length).map (interpolateAt vals)

/-- Replaces the `HZ` column of `l` by the series `hs`, positionally. -/
def setHz (l : List OutRow) (hs : List (Option ℚ)) : List OutRow :=
  (l.zip hs).map fun p => { p.1 with hz := p.2 }

/-- Signal cleaning (line 70): the `HZ` column is interpolated over the
dataframe's current row order. -/
def cleanHz (l : List OutRow) : List OutRow :=
  setHz l (interpolateLinearBoth (l.map fun r => r.hz))

/-- The three required column labels (line 43). -/
def requiredCols : List String :=
  ["STARTDATE", "HZ", "VPM"]

/-- Required columns absent from the file (line 44). -/
def missingCols (f : SourceFile) : List String :=
  requiredCols.filter fun c => !(f.columns.contains c)

/-- Loading of one source file (`_load_one_file`, lines 30-76): returns
the loaded rows (or `none` when the file is skipped) together with the
list of diagnostic messages printed.  An unrecognized extension returns
`None` with no message (line 37); a missing required column (lines
44-47) and an absence of parseable `STARTDATE` values (lines 52-54) each
print one diagnostic. -/
def _load_one_file (f : SourceFile) : Option (List OutRow) × List String :=
  if f.format = FileFormat.other then
    (none, [])
  else if !(missingCols f).isEmpty then
    (none, ["Skipping " ++ f.name ++ ": missing columns"])
  else
    let kept := dropnaStartdate f.rows
    if kept.isEmpty then
      (none, ["Skipping " ++ f.name ++ ": no valid STARTDATE values"])
    else
      (some (cleanHz (reconstructRows f.stem kept)), [])

/-- Rows produced by loading one file, ignoring diagnostics. -/
def _load_rows (f : SourceFile) : Option (List OutRow) :=
  (_load_one_file f).1

/-- The fixed glob patterns (lines 15-22), each split as
(prefix, suffix) around the single `*`: two accepted leading-word name
variants times three formats. -/
def FILE_PATTERNS : List (String × String) :=
  [ ("Bhada Oscillation Data_", ".xlsx")
  , ("Bhadla Oscillation Data_", ".xlsx")
  , ("Bhada Oscillation Data_", ".xls")
  , ("Bhadla Oscillation Data_", ".xls")
  , ("Bhada Oscillation Data_", ".csv")
  , ("Bhadla Oscillation Data_", ".csv") ]

/-- POSIX `Path.glob` matching of a `pre*suf` pattern against a
filename: the name extends `pre` on the left and `suf` on the right
without overlap.  Matching is case-sensitive, as `pathlib` glob is on a
POSIX filesystem. -/
def globMatch (pat : String × String) (name : String) : Bool :=
  pat.1.data.isPrefixOf name.data && pat.2.data.isSuffixOf name.data
    && decide (pat.1.length + pat.2.length ≤ name.length)

/-- Does the filename match at least one of the fixed patterns? -/
def matchesAny (name : String) : Bool :=
  FILE_PATTERNS.any fun pat => globMatch pat name

/-- File discovery (`_discover_files`, lines 24-28) over a directory
listing: every pattern's matches are collected, then deduplicated and
sorted (`sorted(set(files))`). -/
def _discover_files (listing : List String) : List String :=
  Finset.sort (· ≤ ·) (FILE_PATTERNS.flatMap fun pat => listing.filter (globMatch pat)).toFinset

/-- The full pipeline (`load_all_data`, lines 78-90) over a directory,
modelled as the list of its files in enumeration order: discovered
filenames are loaded one by one and every non-empty result is
concatenated into the dataset. -/
def load_all_data (dir : List SourceFile) : List OutRow :=
  ((_discover_files (dir.map fun f => f.name)).filterMap fun n =>
    match dir.find? (fun f => f.name == n) with
    | none => none
    | some f =>
      match _load_rows f with
      | none => none
      | some rows => if rows.isEmpty then none else some rows).flatten

/-- Modelled from the spec (§4.4): stable insertion of an
(original-position, row) pair into a list ordered by `PreciseTime`. -/
def insertByTime (p : Nat × OutRow) : List (Nat × OutRow) → List (Nat × OutRow)
  | [] => [p]
  | q :: rest =>
    if p.2.preciseTime ≤ q.2.preciseTime then p :: q :: rest
    else q :: insertByTime p rest

/-- Modelled from the spec (§4.4): stable sort of indexed rows by
`PreciseTime`. -/
def sortByTime : List (Nat × OutRow) → List (Nat × OutRow)
  | [] => []
  | p :: rest => insertByTime p (sortByTime rest)

/-- Modelled from the spec (§4.4, "Fills missing values by linear
interpolation over the sequence ordered by PreciseTime"): the rows are
ordered by `PreciseTime`, the `HZ` series is interpolated in that order,
and each row receives the value interpolated at its sorted position. -/
def cleanHzSpecOrdered (l : List OutRow) : List OutRow :=
  let sorted := sortByTime l.enum
  let interp := interpolateLinearBoth (sorted.map fun p => p.2.hz)
  let pairs := (sorted.map Prod.fst).zip interp
  l.enum.map fun p =>
    { p.2 with
      hz :=
        match pairs.find? (fun q => q.1 == p.1) with
        | some q => q.2
        | none => p.2.hz }

/-- ASCII-lowercased code point of a character, for the spec-side
case-insensitive matcher. -/
def lowerCode (c : Char) : Nat :=
  if 65 ≤ c.toNat ∧ c.toNat ≤ 90 then c.toNat + 32 else c.toNat

/-- Code points of a string, ASCII-lowercased. -/
def lowerCodes (s : String) : List Nat :=
  s.data.map lowerCode

/-- Modelled from the spec (§4.1, "a fixed set of case-insensitive
filename glob patterns"): `pre*suf` matching that ignores ASCII case. -/
def globMatchCI (pat : String × String) (name : String) : Bool :=
  (lowerCodes pat.1).isPrefixOf (lowerCodes name)
    && (lowerCodes pat.2).isSuffixOf (lowerCodes name)
    && decide (pat.1.length + pat.2.length ≤ name.length)

/-- Does the filename match some fixed pattern, ignoring ASCII case? -/
def matchesAnyCI (name : String) : Bool :=
  FILE_PATTERNS.any fun pat => globMatchCI pat name

/-- Decides whether two row sequences decompose into exactly the same
`TimestampGroups`: for every coarse timestamp occurring in either, the
two sequences contain the same rows in the same relative order. -/
def sameGroupsB (l1 l2 : List KeptRow) : Bool :=
  (l1 ++ l2).all fun r =>
    (l1.filter fun s => s.startdate == r.startdate)
      == (l2.filter fun s => s.startdate == r.startdate)

/-- Rows of the dataset sharing the coarse timestamp `t`: one
`TimestampGroup`, in row order. -/
def groupRows (l : List OutRow) (t : ℚ) : List OutRow :=
  l.filter fun r => r.startdate == t

/-- Sub-minute offsets (in seconds) assigned to the rows of the
`TimestampGroup` of `t`, in row order. -/
def groupOffsets (l : List OutRow) (t : ℚ) : List ℚ :=
  (groupRows l t).map fun r => r.preciseTime - r.startdate

/-! Concrete example files used to instantiate the claims: the epoch
rational `1704067200` models the coarse timestamp
"2024-01-01 00:00" (UTC seconds). -/

/-- Scenario A/C file: one coarse timestamp, four rows, frequency series
`[50.0, missing, missing, 50.3]`, one missing magnitude. -/
def scenarioA : SourceFile :=
  { name := "Bhadla Oscillation Data_1.csv"
    stem := "Bhadla Oscillation Data_1"
    format := FileFormat.csv
    columns := ["STARTDATE", "HZ", "VPM"]
    rows :=
      [ ⟨some 1704067200, some 50, some 230, []⟩
      , ⟨some 1704067200, none, none, []⟩
      , ⟨some 1704067200, none, some 231, []⟩
      , ⟨some 1704067200, some (503/10), some 232, []⟩ ] }

/-- The loader's output on `scenarioA`: offsets 0 s, 15 s, 30 s, 45 s and
the interpolated frequency series `[50.0, 50.1, 50.2, 50.3]`. -/
def scenarioAOut : List OutRow :=
  [ ⟨1704067200, 1704067200, some 50, some 230, "Bhadla Oscillation Data_1", []⟩
  , ⟨1704067200, 1704067215, some (501/10), none, "Bhadla Oscillation Data_1", []⟩
  , ⟨1704067200, 1704067230, some (502/10), some 231, "Bhadla Oscillation Data_1", []⟩
  , ⟨1704067200, 1704067245, some (503/10), some 232, "Bhadla Oscillation Data_1", []⟩ ]

/-- A file whose frequency cells are all unparseable (all missing) while
both timestamps parse. -/
def fileAllMissingHz : SourceFile :=
  { name := "Bhadla Oscillation Data_3.csv"
    stem := "Bhadla Oscillation Data_3"
    format := FileFormat.csv
    columns := ["STARTDATE", "HZ", "VPM"]
    rows :=
      [ ⟨some 1704067200, none, some 230, []⟩
      , ⟨some 1704067260, none, none, []⟩ ] }

/-- The loader's output on `fileAllMissingHz`: both rows retained, both
frequency values still missing after cleaning. -/
def allMissingOut : List OutRow :=
  [ ⟨1704067200, 1704067200, none, some 230, "Bhadla Oscillation Data_3", []⟩
  , ⟨1704067260, 1704067260, none, none, "Bhadla Oscillation Data_3", []⟩ ]

/-- A file whose row order differs from its `PreciseTime` order: the
row of the later minute comes first. -/
def fileLateFirst : SourceFile :=
  { name := "Bhadla Oscillation Data_4.csv"
    stem := "Bhadla Oscillation Data_4"
    format := FileFormat.csv
    columns := ["STARTDATE", "HZ", "VPM"]
    rows :=
      [ ⟨some 120, some 50, none, []⟩
      , ⟨some 60, none, none, []⟩
      , ⟨some 60, some 60, none, []⟩ ] }

/-- The loader's output on `fileLateFirst` (row order `120, 60, 60`):
the missing frequency of the second row is interpolated between its
row-order neighbours `50` and `60`, giving `55`. -/
def lateFirstOut : List OutRow :=
  [ ⟨120, 120, some 50, none, "Bhadla Oscillation Data_4", []⟩
  , ⟨60, 60, some 55, none, "Bhadla Oscillation Data_4", []⟩
  , ⟨60, 90, some 60, none, "Bhadla Oscillation Data_4", []⟩ ]

/-- What the spec's cleaning rule produces on the same file: ordered by
`PreciseTime` the series is `[missing, 60, 50]`, whose leading gap takes
the nearest valid value `60`. -/
def lateFirstSpecOut : List OutRow :=
  [ ⟨120, 120, some 50, none, "Bhadla Oscillation Data_4", []⟩
  , ⟨60, 60, some 60, none, "Bhadla Oscillation Data_4", []⟩
  , ⟨60, 90, some 60, none, "Bhadla Oscillation Data_4", []⟩ ]

/-- A file with an unsupported extension. -/
def fileBadExt : SourceFile :=
  { name := "Bhadla Oscillation Data_2.txt"
    stem := "Bhadla Oscillation Data_2"
    format := FileFormat.other
    columns := ["STARTDATE", "HZ", "VPM"]
    rows := [⟨some 1704067200, some 50, some 230, []⟩] }

/-- Scenario B file: the magnitude column is absent. -/
def fileMissingVpm : SourceFile :=
  { name := "Bhadla Oscillation Data_5.csv"
    stem := "Bhadla Oscillation Data_5"
    format := FileFormat.csv
    columns := ["STARTDATE", "HZ"]
    rows := [⟨some 1704067200, some 50, none, []⟩] }

/-- A file none of whose timestamp cells parses. -/
def fileNoTimestamp : SourceFile :=
  { name := "Bhadla Oscillation Data_6.csv"
    stem := "Bhadla Oscillation Data_6"
    format := FileFormat.csv
    columns := ["STARTDATE", "HZ", "VPM"]
    rows := [⟨none, some 50, some 230, []⟩, ⟨none, some 51, some 231, []⟩] }

/-- A file carrying extra columns, among them one named `PRECISE_TIME`
and one named `sample_idx`. -/
def fileWithExtras : SourceFile :=
  { name := "Bhadla Oscillation Data_7.csv"
    stem := "Bhadla Oscillation Data_7"
    format := FileFormat.csv
    columns := ["STARTDATE", "HZ", "VPM", "PRECISE_TIME", "sample_idx", "note"]
    rows :=
      [ ⟨some 1704067200, some 50, some 230,
          [("PRECISE_TIME", "hello"), ("sample_idx", "7"), ("note", "keep")]⟩ ] }

/-- The loader's output on `fileWithExtras`: the `PRECISE_TIME` and
`sample_idx` extras are gone, `note` is passed through. -/
def withExtrasOut : List OutRow :=
  [ ⟨1704067200, 1704067200, some 50, some 230, "Bhadla Oscillation Data_7",
      [("note", "keep")]⟩ ]

/-- Base file for the reorder example: two rows at minute 60 followed by
one row at minute 120. -/
def fileOrdered : SourceFile :=
  { name := "Bhadla Oscillation Data_8.csv"
    stem := "Bhadla Oscillation Data_8"
    format := FileFormat.csv
    columns := ["STARTDATE", "HZ", "VPM"]
    rows :=
      [ ⟨some 60, some 1, some 10, []⟩
      , ⟨some 60, some 2, some 11, []⟩
      , ⟨some 120, some 3, some 12, []⟩ ] }

/-- The same rows with the minute-120 group moved to the front; group
membership and within-group order are preserved. -/
def fileReordered : SourceFile :=
  { name := "Bhadla Oscillation Data_8.csv"
    stem := "Bhadla Oscillation Data_8"
    format := FileFormat.csv
    columns := ["STARTDATE", "HZ", "VPM"]
    rows :=
      [ ⟨some 120, some 3, some 12, []⟩
      , ⟨some 60, some 1, some 10, []⟩
      , ⟨some 60, some 2, some 11, []⟩ ] }

/-! Helper lemmas about the reconstruction pass. -/

theorem countKey_append (t : ℚ) (l1 l2 : List KeptRow) :
    countKey t (l1 ++ l2) = countKey t l1 + countKey t l2 := by
  simp [countKey, List.filter_append]

theorem countKey_singleton (t : ℚ) (r : KeptRow) :
    countKey t [r] = if r.startdate = t then 1 else 0 := by
  by_cases h : r.startdate = t
  · have hb : (r.startdate == t) = true := by simp [h]
    simp [countKey, List.filter, hb, h]
  · have hb : (r.startdate == t) = false := by simp [h]
    simp [countKey, List.filter, hb, h]

theorem cumcountAux_map_fst (rest : List KeptRow) :
    ∀ prev, (cumcountAux prev rest).map Prod.fst = rest := by
  induction rest with
  | nil => intro prev; simp [cumcountAux]
  | cons r rest ih => intro prev; simp [cumcountAux, ih]

theorem cumcount_map_fst (l : List KeptRow) : (cumcount l).map Prod.fst = l :=
  cumcountAux_map_fst l []

theorem cumcount_length (l : List KeptRow) : (cumcount l).length = l.length := by
  have h := congrArg List.length (cumcount_map_fst l)
  simpa using h

theorem cumcountAux_filter (t : ℚ) (rest : List KeptRow) :
    ∀ prev, (cumcountAux prev rest).filter (fun p => p.1.startdate == t)
      = (List.enumFrom (countKey t prev) (rest.filter fun r => r.startdate == t)).map
          (fun q => (q.2, q.1)) := by
  induction rest with
  | nil => intro prev; simp [cumcountAux]
  | cons r rest ih =>
    intro prev
    by_cases h : r.startdate = t
    · have hb : (r.startdate == t) = true := by simp [h]
      have hc : countKey t (prev ++ [r]) = countKey t prev + 1 := by
        rw [countKey_append, countKey_singleton, if_pos h]
      simp [cumcountAux, List.filter, hb, h, ih, hc, List.enumFrom_cons]
    · have hb : (r.startdate == t) = false := by simp [h]
      have hc : countKey t (prev ++ [r]) = countKey t prev := by
        rw [countKey_append, countKey_singleton, if_neg h]
        simp
      simp [cumcountAux, List.filter, hb, ih, hc]

theorem cumcount_filter (t : ℚ) (l : List KeptRow) :
    (cumcount l).filter (fun p => p.1.startdate == t)
      = (l.filter fun r => r.startdate == t).enum.map (fun q => (q.2, q.1)) := by
  have h0 : countKey t [] = 0 := by simp [countKey]
  rw [cumcount, cumcountAux_filter, h0, List.enum]

theorem reconstructRows_length (stem : String) (kept : List KeptRow) :
    (reconstructRows stem kept).length = kept.length := by
  simp [reconstructRows, cumcount_length]

/-! Helper lemmas about the cleaning pass. -/

theorem interpolateLinearBoth_length (vals : List (Option ℚ)) :
    (interpolateLinearBoth vals).length = vals.length := by
  simp [interpolateLinearBoth]

theorem setHz_length (l : List OutRow) (hs : List (Option ℚ)) (h : l.length ≤ hs.length) :
    (setHz l hs).length = l.length := by
  simp only [setHz, List.length_map, List.length_zip]
  omega

theorem setHz_map_hz (l : List OutRow) (hs : List (Option ℚ)) (h : hs.length = l.length) :
    (setHz l hs).map (fun r => r.hz) = hs := by
  induction l generalizing hs with
  | nil => cases hs with
    | nil => simp [setHz]
    | cons b hs => simp at h
  | cons a l ih => cases hs with
    | nil => simp at h
    | cons b hs =>
      simp only [List.length_cons] at h
      simp only [setHz, List.zip_cons_cons, List.map_cons]
      exact congrArg (b :: ·) (ih hs (by omega))

theorem cleanHz_length (l : List OutRow) : (cleanHz l).length = l.length := by
  rw [cleanHz, setHz_length]
  rw [interpolateLinearBoth_length, List.length_map]

theorem cleanHz_map_hz (l : List OutRow) :
    (cleanHz l).map (fun r => r.hz) = interpolateLinearBoth (l.map fun r => r.hz) := by
  rw [cleanHz, setHz_map_hz]
  rw [interpolateLinearBoth_length, List.length_map]

theorem setHz_filter_map {α : Type} (p : OutRow → Bool) (g : OutRow → α)
    (hp : ∀ r v, p { r with hz := v } = p r) (hg : ∀ r v, g { r with hz := v } = g r)
    (l : List OutRow) :
    ∀ hs : List (Option ℚ), l.length ≤ hs.length →
      ((setHz l hs).filter p).map g = (l.filter p).map g := by
  induction l with
  | nil => intro hs _; simp [setHz]
  | cons a l ih =>
    intro hs hlen
    cases hs with
    | nil => simp at hlen
    | cons b hs =>
      simp only [List.length_cons] at hlen
      have hstep : setHz (a :: l) (b :: hs) = { a with hz := b } :: setHz l hs := rfl
      rw [hstep, List.filter_cons, List.filter_cons, hp a b]
      cases hpa : p a
      · simp only [hpa, Bool.false_eq_true, if_false]
        exact ih hs (by omega)
      · simp only [hpa, if_true, List.map_cons]
        rw [hg a b]
        exact congrArg (g a :: ·) (ih hs (by omega))

theorem cleanHz_filter_map {α : Type} (p : OutRow → Bool) (g : OutRow → α)
    (hp : ∀ r v, p { r with hz := v } = p r) (hg : ∀ r v, g { r with hz := v } = g r)
    (l : List OutRow) :
    ((cleanHz l).filter p).map g = (l.filter p).map g := by
  apply setHz_filter_map p g hp hg
  rw [interpolateLinearBoth_length, List.length_map]

theorem mem_of_mem_enum {α : Type} {q : ℕ × α} {l : List α} (h : q ∈ l.enum) : q.2 ∈ l := by
  rw [List.enum_eq_zip_range] at h
  exact (List.of_mem_zip h).2

theorem reconstruct_group_eq (stem : String) (kept : List KeptRow) (t : ℚ) :
    groupRows (reconstructRows stem kept) t
      = ((kept.filter fun r => r.startdate == t).enum).map
          (fun q => mkOutRow stem kept (q.2, q.1)) := by
  rw [groupRows, reconstructRows, List.filter_map]
  have hcomp : ((fun r => r.startdate == t) ∘ mkOutRow stem kept)
      = (fun p : KeptRow × ℕ => p.1.startdate == t) := rfl
  rw [hcomp, cumcount_filter, List.map_map]
  rfl

theorem reconstruct_filter_offsets (stem : String) (kept : List KeptRow) (t : ℚ) :
    groupOffsets (reconstructRows stem kept) t
      = (List.range (countKey t kept)).map
          (fun j : ℕ => (j : ℚ) / (countKey t kept : ℚ) * 60) := by
  rw [groupOffsets, reconstruct_group_eq, List.map_map]
  have hmem : ∀ q ∈ (kept.filter fun r => r.startdate == t).enum,
      (((fun r : OutRow => r.preciseTime - r.startdate)
          ∘ fun q : ℕ × KeptRow => mkOutRow stem kept (q.2, q.1)) q)
        = (fun q : ℕ × KeptRow => (q.1 : ℚ) / (countKey t kept : ℚ) * 60) q := by
    intro q hq
    have h2 : q.2 ∈ kept.filter fun r => r.startdate == t := mem_of_mem_enum hq
    have ht : q.2.startdate = t := by
      have := List.of_mem_filter h2
      simpa using this
    simp only [Function.comp_apply, mkOutRow, ht]
    ring
  rw [List.map_congr_left hmem]
  have hsplit :
      List.map (fun q : ℕ × KeptRow => (q.1 : ℚ) / (countKey t kept : ℚ) * 60)
          (kept.filter fun r => r.startdate == t).enum
        = List.map (fun j : ℕ => (j : ℚ) / (countKey t kept : ℚ) * 60)
            (List.map Prod.fst (kept.filter fun r => r.startdate == t).enum) := by
    rw [List.map_map]
    rfl
  rw [hsplit, List.enum_map_fst]
  have hlen : (kept.filter fun r => r.startdate == t).length = countKey t kept := rfl
  rw [hlen]

theorem load_rows_eq (f : SourceFile) (hfmt : f.format ≠ FileFormat.other)
    (hcols : (missingCols f).isEmpty = true)
    (hne : (dropnaStartdate f.rows).isEmpty = false) :
    _load_rows f = some (cleanHz (reconstructRows f.stem (dropnaStartdate f.rows))) := by
  rw [_load_rows, _load_one_file]
  rw [if_neg hfmt]
  simp only [hcols]
  simp only [hne]
  rfl

/-! Helper lemmas about the interpolation. -/

theorem getD_some_lt {α : Type} (l : List (Option α)) (n : ℕ) (v : α)
    (h : l.getD n none = some v) : n < l.length := by
  by_contra hcon
  rw [List.getD_eq_default] at h
  · cases h
  · omega

theorem interpolateLinearBoth_getD (vals : List (Option ℚ)) (i : ℕ) (h : i < vals.length) :
    (interpolateLinearBoth vals).getD i none = interpolateAt vals i := by
  rw [interpolateLinearBoth, List.getD_eq_getElem?_getD, List.getElem?_map,
    List.getElem?_range h]
  rfl

theorem prevValid_eq_some (vals : List (Option ℚ)) (a : ℕ) (va : ℚ)
    (hva : vals.getD a none = some va) :
    ∀ i, a < i → (∀ j, a < j → j < i → vals.getD j none = none) →
      prevValid vals i = some (a, va) := by
  intro i
  induction i with
  | zero => omega
  | succ i ih =>
    intro hai hnone
    rw [prevValid]
    by_cases hia : a = i
    · subst hia
      rw [hva]
    · have hi : vals.getD i none = none := hnone i (by omega) (by omega)
      rw [hi]
      exact ih (by omega) (fun j hj1 hj2 => hnone j hj1 (by omega))

theorem prevValid_eq_none (vals : List (Option ℚ)) :
    ∀ i, (∀ j, j < i → vals.getD j none = none) → prevValid vals i = none := by
  intro i
  induction i with
  | zero => intro _; rfl
  | succ i ih =>
    intro h
    rw [prevValid, h i (by omega)]
    exact ih fun j hj => h j (by omega)

theorem prevValid_none_forall (vals : List (Option ℚ)) :
    ∀ i, prevValid vals i = none → ∀ j, j < i → vals.getD j none = none := by
  intro i
  induction i with
  | zero => omega
  | succ i ih =>
    intro h j hj
    rw [prevValid] at h
    cases hgi : vals.getD i none with
    | some v => rw [hgi] at h; cases h
    | none =>
      rw [hgi] at h
      rcases Nat.lt_succ_iff_lt_or_eq.mp hj with hj' | hj'
      · exact ih h j hj'
      · rw [hj']
        exact hgi

theorem nextValidFrom_eq_some (vals : List (Option ℚ)) (b : ℕ) (vb : ℚ)
    (hvb : vals.getD b none = some vb) :
    ∀ fuel j, j ≤ b → b < j + fuel → (∀ k, j ≤ k → k < b → vals.getD k none = none) →
      nextValidFrom vals j fuel = some (b, vb) := by
  intro fuel
  induction fuel with
  | zero => omega
  | succ fuel ih =>
    intro j h1 h2 hnone
    rw [nextValidFrom]
    by_cases hjb : j = b
    · subst hjb
      rw [hvb]
    · have hj : vals.getD j none = none := hnone j (le_refl j) (by omega)
      rw [hj]
      exact ih (j + 1) (by omega) (by omega) (fun k hk1 hk2 => hnone k (by omega) hk2)

theorem nextValidFrom_eq_none (vals : List (Option ℚ)) :
    ∀ fuel j, (∀ k, j ≤ k → vals.getD k none = none) → nextValidFrom vals j fuel = none := by
  intro fuel
  induction fuel with
  | zero => intro j _; rfl
  | succ fuel ih =>
    intro j h
    rw [nextValidFrom, h j (le_refl j)]
    exact ih (j + 1) fun k hk => h k (by omega)

theorem nextValidFrom_none_forall (vals : List (Option ℚ)) :
    ∀ fuel j, nextValidFrom vals j fuel = none →
      ∀ k, j ≤ k → k < j + fuel → vals.getD k none = none := by
  intro fuel
  induction fuel with
  | zero => omega
  | succ fuel ih =>
    intro j h k hk1 hk2
    rw [nextValidFrom] at h
    cases hgj : vals.getD j none with
    | some v => rw [hgj] at h; cases h
    | none =>
      rw [hgj] at h
      by_cases hkj : k = j
      · rw [hkj]
        exact hgj
      · exact ih (j + 1) h k (by omega) (by omega)

theorem nextValid_eq_some (vals : List (Option ℚ)) (i b : ℕ) (vb : ℚ)
    (hib : i < b) (hvb : vals.getD b none = some vb)
    (hnone : ∀ k, i < k → k < b → vals.getD k none = none) :
    nextValid vals i = some (b, vb) := by
  have hblen : b < vals.length := getD_some_lt vals b vb hvb
  rw [nextValid]
  exact nextValidFrom_eq_some vals b vb hvb (vals.length - (i + 1)) (i + 1) (by omega)
    (by omega) (fun k hk1 hk2 => hnone k (by omega) hk2)

theorem nextValid_eq_none (vals : List (Option ℚ)) (i : ℕ)
    (hnone : ∀ k, i < k → vals.getD k none = none) :
    nextValid vals i = none := by
  rw [nextValid]
  exact nextValidFrom_eq_none vals (vals.length - (i + 1)) (i + 1) fun k hk =>
    hnone k (by omega)

theorem nextValid_none_forall (vals : List (Option ℚ)) (i : ℕ)
    (h : nextValid vals i = none) : ∀ k, i < k → vals.getD k none = none := by
  intro k hk
  rcases lt_or_ge k vals.length with hklen | hklen
  · exact nextValidFrom_none_forall vals (vals.length - (i + 1)) (i + 1) h k (by omega)
      (by omega)
  · rw [List.getD_eq_default]
    omega

theorem interpolateAt_present (vals : List (Option ℚ)) (i : ℕ) (v : ℚ)
    (h : vals.getD i none = some v) : interpolateAt vals i = some v := by
  rw [interpolateAt, h]

theorem interpolateAt_interior (vals : List (Option ℚ)) (i a b : ℕ) (va vb : ℚ)
    (hi : vals.getD i none = none) (hai : a < i) (hib : i < b)
    (hva : vals.getD a none = some va) (hvb : vals.getD b none = some vb)
    (hgap : ∀ j, a < j → j < b → vals.getD j none = none) :
    interpolateAt vals i
      = some (va + (vb - va) * (((i : ℚ) - (a : ℚ)) / ((b : ℚ) - (a : ℚ)))) := by
  rw [interpolateAt, hi,
    prevValid_eq_some vals a va hva i hai (fun j h1 h2 => hgap j h1 (by omega)),
    nextValid_eq_some vals i b vb hib hvb (fun k h1 h2 => hgap k (by omega) h2)]

theorem interpolateAt_leading (vals : List (Option ℚ)) (i b : ℕ) (vb : ℚ)
    (hib : i < b) (hvb : vals.getD b none = some vb)
    (hnone : ∀ j, j < b → vals.getD j none = none) :
    interpolateAt vals i = some vb := by
  rw [interpolateAt, hnone i hib,
    prevValid_eq_none vals i (fun j hj => hnone j (by omega)),
    nextValid_eq_some vals i b vb hib hvb (fun k _ hk2 => hnone k hk2)]

theorem interpolateAt_trailing (vals : List (Option ℚ)) (i a : ℕ) (va : ℚ)
    (hai : a < i) (hva : vals.getD a none = some va)
    (hnone : ∀ j, a < j → vals.getD j none = none) :
    interpolateAt vals i = some va := by
  rw [interpolateAt, hnone i hai,
    prevValid_eq_some vals a va hva i hai (fun j h1 _ => hnone j h1),
    nextValid_eq_none vals i (fun k hk => hnone k (by omega))]

theorem interpolateAt_all_none (vals : List (Option ℚ)) (i : ℕ)
    (hall : ∀ j, vals.getD j none = none) : interpolateAt vals i = none := by
  rw [interpolateAt, hall i,
    prevValid_eq_none vals i (fun j _ => hall j),
    nextValid_eq_none vals i (fun k _ => hall k)]

theorem interpolateAt_ne_none (vals : List (Option ℚ)) (i j : ℕ) (v : ℚ)
    (hj : vals.getD j none = some v) : interpolateAt vals i ≠ none := by
  intro hcon
  rw [interpolateAt] at hcon
  cases hgi : vals.getD i none with
  | some v' => rw [hgi] at hcon; cases hcon
  | none =>
    rw [hgi] at hcon
    cases hp : prevValid vals i with
    | some av =>
      rw [hp] at hcon
      cases hnx : nextValid vals i with
      | some bv => rw [hnx] at hcon; cases hcon
      | none => rw [hnx] at hcon; cases hcon
    | none =>
      cases hnx : nextValid vals i with
      | some bv => rw [hp, hnx] at hcon; cases hcon
      | none =>
        have h1 := prevValid_none_forall vals i hp
        have h2 := nextValid_none_forall vals i hnx
        rcases lt_trichotomy j i with h | h | h
        · rw [h1 j h] at hj
          cases hj
        · rw [h, hgi] at hj
          cases hj
        · rw [h2 j h] at hj
          cases hj

/-! Concrete evaluations of the loader, shared by several claims. -/

theorem load_scenarioA : _load_rows scenarioA = some scenarioAOut := by
  rw [load_rows_eq scenarioA (by decide) (by decide) (by decide)]
  norm_num [scenarioA, scenarioAOut, dropnaStartdate, cleanHz, setHz, reconstructRows,
    cumcount, cumcountAux, countKey, mkOutRow, passthroughExtras, overwrittenCols,
    interpolateLinearBoth, interpolateAt, prevValid, nextValid, nextValidFrom,
    List.range_succ, List.filter, List.filterMap, beq_iff_eq]

theorem load_fileAllMissingHz : _load_rows fileAllMissingHz = some allMissingOut := by
  rw [load_rows_eq fileAllMissingHz (by decide) (by decide) (by decide)]
  have e1 : (((1704067200 : ℚ)) == ((1704067260 : ℚ))) = false := by
    rw [beq_eq_false_iff_ne]
    norm_num
  have e2 : (((1704067260 : ℚ)) == ((1704067200 : ℚ))) = false := by
    rw [beq_eq_false_iff_ne]
    norm_num
  norm_num [e1, e2, fileAllMissingHz, allMissingOut, dropnaStartdate, cleanHz, setHz,
    reconstructRows, cumcount, cumcountAux, countKey, mkOutRow, passthroughExtras,
    overwrittenCols, interpolateLinearBoth, interpolateAt, prevValid, nextValid, nextValidFrom,
    List.range_succ, List.filter, List.filterMap, beq_iff_eq]

theorem load_fileWithExtras : _load_rows fileWithExtras = some withExtrasOut := by
  rw [load_rows_eq fileWithExtras (by decide) (by decide) (by decide)]
  have e1 : passthroughExtras [("PRECISE_TIME", "hello"), ("sample_idx", "7"), ("note", "keep")]
      = [("note", "keep")] := by decide
  norm_num [e1, fileWithExtras, withExtrasOut, dropnaStartdate, cleanHz, setHz, reconstructRows,
    cumcount, cumcountAux, countKey, mkOutRow,
    interpolateLinearBoth, interpolateAt, prevValid, nextValid, nextValidFrom,
    List.range_succ, List.filter, List.filterMap, beq_iff_eq]

theorem load_fileLateFirst : _load_rows fileLateFirst = some lateFirstOut := by
  rw [load_rows_eq fileLateFirst (by decide) (by decide) (by decide)]
  have e1 : (((120 : ℚ)) == ((60 : ℚ))) = false := by
    rw [beq_eq_false_iff_ne]
    norm_num
  have e2 : (((60 : ℚ)) == ((120 : ℚ))) = false := by
    rw [beq_eq_false_iff_ne]
    norm_num
  norm_num [e1, e2, fileLateFirst, lateFirstOut, dropnaStartdate, cleanHz, setHz,
    reconstructRows, cumcount, cumcountAux, countKey, mkOutRow, passthroughExtras,
    overwrittenCols, interpolateLinearBoth, interpolateAt, prevValid, nextValid, nextValidFrom,
    List.range_succ, List.filter, List.filterMap, beq_iff_eq]

theorem specOrdered_fileLateFirst :
    cleanHzSpecOrdered (reconstructRows fileLateFirst.stem (dropnaStartdate fileLateFirst.rows))
      = lateFirstSpecOut := by
  have e1 : (((120 : ℚ)) == ((60 : ℚ))) = false := by
    rw [beq_eq_false_iff_ne]
    norm_num
  have e2 : (((60 : ℚ)) == ((120 : ℚ))) = false := by
    rw [beq_eq_false_iff_ne]
    norm_num
  have n1 : ((1 : ℕ) == (0 : ℕ)) = false := rfl
  have n2 : ((2 : ℕ) == (0 : ℕ)) = false := rfl
  have n3 : ((1 : ℕ) == (2 : ℕ)) = false := rfl
  have n4 : ((0 : ℕ) == (0 : ℕ)) = true := rfl
  have n5 : ((2 : ℕ) == (2 : ℕ)) = true := rfl
  have n6 : ((0 : ℕ) == (1 : ℕ)) = false := rfl
  have n7 : ((2 : ℕ) == (1 : ℕ)) = false := rfl
  have n8 : ((0 : ℕ) == (2 : ℕ)) = false := rfl
  have n9 : ((1 : ℕ) == (1 : ℕ)) = true := rfl
  norm_num [e1, e2, n1, n2, n3, n4, n5, n6, n7, n8, n9, fileLateFirst, lateFirstSpecOut,
    dropnaStartdate, reconstructRows,
    cumcount, cumcountAux, countKey, mkOutRow, passthroughExtras, overwrittenCols,
    cleanHzSpecOrdered, sortByTime, insertByTime, interpolateLinearBoth, interpolateAt,
    prevValid, nextValid, nextValidFrom, List.enum, List.enumFrom,
    List.range_succ, List.filter, List.filterMap, List.find?, beq_iff_eq]

theorem groupRows_cleanHz_length (l : List OutRow) (t : ℚ) :
    (groupRows (cleanHz l) t).length = (groupRows l t).length := by
  have h := congrArg List.length (cleanHz_filter_map (fun r => r.startdate == t)
    (fun r => r.preciseTime) (fun r v => rfl) (fun r v => rfl) l)
  simpa only [List.length_map] using h

theorem groupRows_reconstruct_length (stem : String) (kept : List KeptRow) (t : ℚ) :
    (groupRows (reconstructRows stem kept) t).length = countKey t kept := by
  rw [reconstruct_group_eq, List.length_map, List.enum_length]
  rfl

/-- C1: for every loaded file and every `TimestampGroup` of size `k`,
the `k` records receive, in original row order, `PreciseTime` offsets
exactly `0, 60/k, ..., 60(k-1)/k` seconds past the coarse timestamp;
these offsets are strictly increasing within the group and all lie in
`[0, 60)` seconds. -/
theorem C1_timestamp_group_offsets (f : SourceFile) (t : ℚ)
    (hfmt : f.format ≠ FileFormat.other)
    (hcols : (missingCols f).isEmpty = true)
    (hne : (dropnaStartdate f.rows).isEmpty = false) :
    ∃ out, _load_rows f = some out ∧
      groupOffsets out t
        = (List.range (groupRows out t).length).map
            (fun j : ℕ => (j : ℚ) / ((groupRows out t).length : ℚ) * 60) ∧
      List.Pairwise (· < ·) (groupOffsets out t) ∧
      ∀ x ∈ groupOffsets out t, 0 ≤ x ∧ x < 60 := by
  refine ⟨_, load_rows_eq f hfmt hcols hne, ?_, ?_, ?_⟩ <;>
  · have hOffEq : groupOffsets (cleanHz (reconstructRows f.stem (dropnaStartdate f.rows))) t
        = groupOffsets (reconstructRows f.stem (dropnaStartdate f.rows)) t := by
      simp only [groupOffsets, groupRows]
      exact cleanHz_filter_map (fun r => r.startdate == t)
        (fun r => r.preciseTime - r.startdate) (fun r v => rfl) (fun r v => rfl) _
    have hLen : (groupRows (cleanHz (reconstructRows f.stem (dropnaStartdate f.rows))) t).length
        = countKey t (dropnaStartdate f.rows) := by
      rw [groupRows_cleanHz_length, groupRows_reconstruct_length]
    have hmain : groupOffsets (cleanHz (reconstructRows f.stem (dropnaStartdate f.rows))) t
        = (List.range (countKey t (dropnaStartdate f.rows))).map
            (fun j : ℕ => (j : ℚ) / ((countKey t (dropnaStartdate f.rows)) : ℚ) * 60) := by
      rw [hOffEq, reconstruct_filter_offsets]
    first
    | -- the offsets list
      rw [hLen, hmain]
    | -- strict increase
      (rw [hmain]
       rcases Nat.eq_zero_or_pos (countKey t (dropnaStartdate f.rows)) with hk | hk
       · rw [hk]
         simp
       · rw [List.pairwise_map]
         have hkq : (0 : ℚ) < ((countKey t (dropnaStartdate f.rows)) : ℚ) := by
           exact_mod_cast hk
         refine (List.pairwise_lt_range _).imp ?_
         intro a b hab
         have hcast : (a : ℚ) < (b : ℚ) := by exact_mod_cast hab
         exact mul_lt_mul_of_pos_right ((div_lt_div_iff_of_pos_right hkq).mpr hcast)
           (by norm_num))
    | -- bounds
      (rw [hmain]
       intro x hx
       rw [List.mem_map] at hx
       obtain ⟨j, hj, rfl⟩ := hx
       rw [List.mem_range] at hj
       have hk0 : 0 < countKey t (dropnaStartdate f.rows) := by omega
       have hkq : (0 : ℚ) < ((countKey t (dropnaStartdate f.rows)) : ℚ) := by
         exact_mod_cast hk0
       constructor
       · positivity
       · have hj1 : (j : ℚ) / ((countKey t (dropnaStartdate f.rows)) : ℚ) < 1 :=
           (div_lt_one hkq).mpr (by exact_mod_cast hj)
         calc (j : ℚ) / ((countKey t (dropnaStartdate f.rows)) : ℚ) * 60
             < 1 * 60 := mul_lt_mul_of_pos_right hj1 (by norm_num)
           _ = 60 := by norm_num)

theorem load_rows_some_inv (f : SourceFile) (out : List OutRow)
    (h : _load_rows f = some out) :
    out = cleanHz (reconstructRows f.stem (dropnaStartdate f.rows)) := by
  rw [_load_rows, _load_one_file] at h
  by_cases h1 : f.format = FileFormat.other
  · rw [if_pos h1] at h
    cases h
  · rw [if_neg h1] at h
    cases h2 : (missingCols f).isEmpty with
    | false => rw [h2] at h; cases h
    | true =>
      rw [h2] at h
      cases h3 : (dropnaStartdate f.rows).isEmpty with
      | true =>
        simp only [h3, Bool.not_true, if_false, if_true, Bool.false_eq_true] at h
        exact Option.noConfusion h
      | false =>
        simp only [h3, Bool.not_true, if_false, if_true, Bool.false_eq_true] at h
        exact (Option.some.inj h).symm

theorem reconstructRows_map_hz (stem : String) (kept : List KeptRow) :
    (reconstructRows stem kept).map (fun r => r.hz) = kept.map (fun r => r.hz) := by
  rw [reconstructRows, List.map_map]
  have h1 : ((fun r : OutRow => r.hz) ∘ mkOutRow stem kept)
      = ((fun r : KeptRow => r.hz) ∘ Prod.fst) := rfl
  rw [h1, ← List.map_map, cumcount_map_fst]

theorem load_rows_map_hz (f : SourceFile) (out : List OutRow)
    (h : _load_rows f = some out) :
    out.map (fun r => r.hz)
      = interpolateLinearBoth ((dropnaStartdate f.rows).map fun r => r.hz) := by
  rw [load_rows_some_inv f out h, cleanHz_map_hz, reconstructRows_map_hz]

/-- C9: for a file in which every frequency value is unparseable (all
missing) but at least one timestamp parses, the loader keeps the file:
all kept rows are retained and their frequency values remain missing
after cleaning. -/
theorem C9_all_missing_frequency_retained (f : SourceFile)
    (hfmt : f.format ≠ FileFormat.other)
    (hcols : (missingCols f).isEmpty = true)
    (hne : (dropnaStartdate f.rows).isEmpty = false)
    (hall : (dropnaStartdate f.rows).all (fun r => r.hz == none) = true) :
    ∃ out, _load_rows f = some out ∧
      out.length = (dropnaStartdate f.rows).length ∧
      ∀ r ∈ out, r.hz = none := by
  refine ⟨_, load_rows_eq f hfmt hcols hne, ?_, ?_⟩
  · rw [cleanHz_length, reconstructRows_length]
  · have hgetD : ∀ j, ((dropnaStartdate f.rows).map fun r => r.hz).getD j none = none := by
      intro j
      rcases lt_or_ge j ((dropnaStartdate f.rows).map fun r => r.hz).length with hj | hj
      · rw [List.getD_eq_getElem?_getD]
        rw [List.getElem?_eq_getElem hj]
        have hmem := List.getElem_mem hj
        rw [List.mem_map] at hmem
        obtain ⟨r, hrk, hr⟩ := hmem
        have := List.all_eq_true.mp hall r hrk
        rw [beq_iff_eq] at this
        rw [← hr, this]
        rfl
      · rw [List.getD_eq_default]
        exact hj
    intro r hr
    have hr2 : r.hz ∈ (cleanHz (reconstructRows f.stem (dropnaStartdate f.rows))).map
        (fun r => r.hz) := List.mem_map_of_mem _ hr
    rw [cleanHz_map_hz, reconstructRows_map_hz, interpolateLinearBoth, List.mem_map] at hr2
    obtain ⟨i, _, hi⟩ := hr2
    rw [← hi]
    exact interpolateAt_all_none _ i hgetD

/-- Witness instantiating C9 at `fileAllMissingHz`. -/
theorem C9_all_missing_frequency_retained_witness :
    fileAllMissingHz.format ≠ FileFormat.other ∧
    (missingCols fileAllMissingHz).isEmpty = true ∧
    (dropnaStartdate fileAllMissingHz.rows).isEmpty = false ∧
    (dropnaStartdate fileAllMissingHz.rows).all (fun r => r.hz == none) = true ∧
    (∃ out, _load_rows fileAllMissingHz = some out ∧
      out.length = (dropnaStartdate fileAllMissingHz.rows).length ∧
      ∀ r ∈ out, r.hz = none) :=
  ⟨by decide, by decide, by decide, by decide,
    C9_all_missing_frequency_retained fileAllMissingHz (by decide) (by decide) (by decide)
      (by decide)⟩

/-- Counterexample to C3 as stated: `fileAllMissingHz` is a loaded,
non-empty file whose frequency column still contains (two) missing
values after cleaning. -/
theorem C3_counterexample :
    _load_rows fileAllMissingHz = some allMissingOut ∧
    allMissingOut.length = 2 ∧
    allMissingOut.countP (fun r => r.hz == none) = 2 :=
  ⟨load_fileAllMissingHz, by decide, by decide⟩

/-- C3 (amended): after cleaning, the frequency column of a loaded file
contains zero missing values provided at least one frequency value of
the file was present; the magnitude column may still contain missing
values (second conjunct: a loaded file with one missing magnitude). -/
theorem C3_frequency_complete_after_cleaning :
    (∀ f : SourceFile, f.format ≠ FileFormat.other →
      (missingCols f).isEmpty = true →
      (dropnaStartdate f.rows).isEmpty = false →
      (dropnaStartdate f.rows).any (fun r => !(r.hz == none)) = true →
      ∃ out, _load_rows f = some out ∧ out ≠ [] ∧ ∀ r ∈ out, r.hz ≠ none) ∧
    (_load_rows fileAllMissingHz = some allMissingOut ∧
      allMissingOut.countP (fun r => r.vpm == none) = 1) := by
  refine ⟨?_, load_fileAllMissingHz, by decide⟩
  intro f hfmt hcols hne hsome
  refine ⟨_, load_rows_eq f hfmt hcols hne, ?_, ?_⟩
  · intro hnil
    have hlen := congrArg List.length hnil
    rw [cleanHz_length, reconstructRows_length, List.length_nil] at hlen
    rw [List.isEmpty_eq_false_iff_exists_mem] at hne
    obtain ⟨x, hx⟩ := hne
    have hpos := List.length_pos_of_mem hx
    omega
  · obtain ⟨r0, hr0k, hr0⟩ := List.any_eq_true.mp hsome
    have hr0some : ∃ v, r0.hz = some v := by
      cases hv : r0.hz with
      | none => rw [hv] at hr0; simp at hr0
      | some v => exact ⟨v, rfl⟩
    obtain ⟨v, hv⟩ := hr0some
    have hvmem : some v ∈ ((dropnaStartdate f.rows).map fun r => r.hz) := by
      rw [List.mem_map]
      exact ⟨r0, hr0k, hv⟩
    obtain ⟨j, hjlt, hj⟩ := List.mem_iff_getElem.mp hvmem
    have hjD : ((dropnaStartdate f.rows).map fun r => r.hz).getD j none = some v := by
      rw [List.getD_eq_getElem?_getD, List.getElem?_eq_getElem hjlt, hj]
      rfl
    intro r hr
    have hr2 : r.hz ∈ (cleanHz (reconstructRows f.stem (dropnaStartdate f.rows))).map
        (fun r => r.hz) := List.mem_map_of_mem _ hr
    rw [cleanHz_map_hz, reconstructRows_map_hz, interpolateLinearBoth, List.mem_map] at hr2
    obtain ⟨i, _, hi⟩ := hr2
    rw [← hi]
    exact interpolateAt_ne_none _ i j v hjD

/-- Witness instantiating the amended C3 at the Scenario A file. -/
theorem C3_frequency_complete_after_cleaning_witness :
    scenarioA.format ≠ FileFormat.other ∧
    (missingCols scenarioA).isEmpty = true ∧
    (dropnaStartdate scenarioA.rows).isEmpty = false ∧
    (dropnaStartdate scenarioA.rows).any (fun r => !(r.hz == none)) = true ∧
    (∃ out, _load_rows scenarioA = some out ∧ out ≠ [] ∧ ∀ r ∈ out, r.hz ≠ none) :=
  ⟨by decide, by decide, by decide, by decide,
    C3_frequency_complete_after_cleaning.1 scenarioA (by decide) (by decide) (by decide)
      (by decide)⟩

theorem sameGroups_filter (l1 l2 : List KeptRow) (h : sameGroupsB l1 l2 = true) (t : ℚ) :
    l1.filter (fun s => s.startdate == t) = l2.filter (fun s => s.startdate == t) := by
  by_cases hex : ∃ r ∈ l1 ++ l2, r.startdate = t
  · obtain ⟨r, hr, hrt⟩ := hex
    have hall := List.all_eq_true.mp h r hr
    rw [beq_iff_eq] at hall
    rw [← hrt]
    exact hall
  · push_neg at hex
    have h1 : l1.filter (fun s => s.startdate == t) = [] := by
      rw [List.filter_eq_nil_iff]
      intro a ha
      have := hex a (List.mem_append_left l2 ha)
      simp [this]
    have h2 : l2.filter (fun s => s.startdate == t) = [] := by
      rw [List.filter_eq_nil_iff]
      intro a ha
      have := hex a (List.mem_append_right l1 ha)
      simp [this]
    rw [h1, h2]

/-- C7: two files whose rows decompose into the same `TimestampGroups`
(same rows per coarse timestamp, in the same within-group order) receive
the same `PreciseTime` assignment for every row: group by group, the
rows agree on every column except the (order-sensitive) interpolated
frequency. -/
theorem C7_reorder_preserves_precise_time (f1 f2 : SourceFile)
    (hfmt1 : f1.format ≠ FileFormat.other)
    (hcols1 : (missingCols f1).isEmpty = true)
    (hne1 : (dropnaStartdate f1.rows).isEmpty = false)
    (hfmt2 : f2.format ≠ FileFormat.other)
    (hcols2 : (missingCols f2).isEmpty = true)
    (hne2 : (dropnaStartdate f2.rows).isEmpty = false)
    (hgrp : sameGroupsB (dropnaStartdate f1.rows) (dropnaStartdate f2.rows) = true)
    (t : ℚ) :
    ∃ out1 out2, _load_rows f1 = some out1 ∧ _load_rows f2 = some out2 ∧
      (groupRows out1 t).map (fun r => (r.startdate, r.vpm, r.extras, r.preciseTime))
        = (groupRows out2 t).map (fun r => (r.startdate, r.vpm, r.extras, r.preciseTime)) := by
  refine ⟨_, _, load_rows_eq f1 hfmt1 hcols1 hne1, load_rows_eq f2 hfmt2 hcols2 hne2, ?_⟩
  have hfil := sameGroups_filter (dropnaStartdate f1.rows) (dropnaStartdate f2.rows) hgrp t
  have hcnt : countKey t (dropnaStartdate f1.rows) = countKey t (dropnaStartdate f2.rows) := by
    rw [countKey, countKey, hfil]
  have hside : ∀ (stem : String) (kept : List KeptRow),
      (groupRows (cleanHz (reconstructRows stem kept)) t).map
          (fun r => (r.startdate, r.vpm, r.extras, r.preciseTime))
        = ((kept.filter fun r => r.startdate == t).enum).map
            (fun q => (q.2.startdate, q.2.vpm, passthroughExtras q.2.extras,
              q.2.startdate + ((q.1 : ℚ) / (countKey q.2.startdate kept : ℚ)) * 60)) := by
    intro stem kept
    have hstep1 : (groupRows (cleanHz (reconstructRows stem kept)) t).map
          (fun r => (r.startdate, r.vpm, r.extras, r.preciseTime))
        = (groupRows (reconstructRows stem kept) t).map
            (fun r => (r.startdate, r.vpm, r.extras, r.preciseTime)) :=
      cleanHz_filter_map (fun r => r.startdate == t)
        (fun r => (r.startdate, r.vpm, r.extras, r.preciseTime))
        (fun r v => rfl) (fun r v => rfl) (reconstructRows stem kept)
    rw [hstep1, reconstruct_group_eq, List.map_map]
    rfl
  rw [hside f1.stem (dropnaStartdate f1.rows), hside f2.stem (dropnaStartdate f2.rows), hfil]
  apply List.map_congr_left
  intro q hq
  have hqt : q.2.startdate = t := by
    have h2 := mem_of_mem_enum hq
    have := List.of_mem_filter h2
    simpa using this
  rw [hqt, hcnt]

/-- Witness instantiating C7 on `fileOrdered` and `fileReordered` at the
minute-60 group. -/
theorem C7_reorder_preserves_precise_time_witness :
    sameGroupsB (dropnaStartdate fileOrdered.rows) (dropnaStartdate fileReordered.rows)
      = true ∧
    fileOrdered.rows ≠ fileReordered.rows ∧
    (∃ out1 out2, _load_rows fileOrdered = some out1 ∧ _load_rows fileReordered = some out2 ∧
      (groupRows out1 60).map (fun r => (r.startdate, r.vpm, r.extras, r.preciseTime))
        = (groupRows out2 60).map (fun r => (r.startdate, r.vpm, r.extras, r.preciseTime))) :=
  ⟨by decide, by decide,
    C7_reorder_preserves_precise_time fileOrdered fileReordered (by decide) (by decide)
      (by decide) (by decide) (by decide) (by decide) (by decide) 60⟩

theorem getD_map_proj {α β : Type} (g : α → β) (l : List α) (i : ℕ) (d : α) :
    (l.map g).getD i (g d) = g (l.getD i d) := by
  rw [List.getD_eq_getElem?_getD, List.getD_eq_getElem?_getD, List.getElem?_map]
  cases l[i]? <;> rfl

theorem cleanHz_map_extras (l : List OutRow) :
    (cleanHz l).map (fun r => r.extras) = l.map (fun r => r.extras) := by
  have h := cleanHz_filter_map (fun _ => true) (fun r => r.extras)
    (fun r v => rfl) (fun r v => rfl) l
  simpa using h

theorem reconstructRows_map_extras (stem : String) (kept : List KeptRow) :
    (reconstructRows stem kept).map (fun r => r.extras)
      = kept.map (fun r => passthroughExtras r.extras) := by
  rw [reconstructRows, List.map_map]
  have h1 : ((fun r : OutRow => r.extras) ∘ mkOutRow stem kept)
      = ((fun r : KeptRow => passthroughExtras r.extras) ∘ Prod.fst) := rfl
  rw [h1, ← List.map_map, cumcount_map_fst]

/-- Counterexample to C5 as stated: the uppercased name
"BHADLA OSCILLATION DATA_9.CSV" matches the patterns case-insensitively,
yet the File Locator does not include it: `pathlib` glob matching is
case-sensitive on a POSIX filesystem. -/
theorem C5_counterexample :
    matchesAnyCI "BHADLA OSCILLATION DATA_9.CSV" = true ∧
    matchesAny "BHADLA OSCILLATION DATA_9.CSV" = false ∧
    _discover_files ["BHADLA OSCILLATION DATA_9.CSV"] = [] := by
  refine ⟨by decide, by decide, ?_⟩
  rw [_discover_files]
  have hflat : (FILE_PATTERNS.flatMap fun pat =>
      ["BHADLA OSCILLATION DATA_9.CSV"].filter (globMatch pat)) = [] := by decide
  rw [hflat]
  simp

/-- C5 (amended): the File Locator includes a file if and only if its
name matches one of the six fixed glob patterns (two accepted
leading-word name variants times three formats) with case-sensitive
matching, and its output is deduplicated and sorted in the
lexicographic string order; when nothing matches it returns the empty
sequence rather than an error. -/
theorem C5_discovery_characterization (listing : List String) :
    (∀ name, name ∈ _discover_files listing ↔ (name ∈ listing ∧ matchesAny name = true)) ∧
    List.Sorted (· < ·) (_discover_files listing) ∧
    (_discover_files listing).Nodup ∧
    ((∀ name ∈ listing, matchesAny name = false) → _discover_files listing = []) := by
  refine ⟨?_, Finset.sort_sorted_lt _, Finset.sort_nodup _ _, ?_⟩
  · intro name
    rw [_discover_files, Finset.mem_sort, List.mem_toFinset, List.mem_flatMap]
    constructor
    · rintro ⟨pat, hpat, hmem⟩
      rw [List.mem_filter] at hmem
      exact ⟨hmem.1, List.any_eq_true.mpr ⟨pat, hpat, hmem.2⟩⟩
    · rintro ⟨hmem, hany⟩
      obtain ⟨pat, hpat, hg⟩ := List.any_eq_true.mp hany
      exact ⟨pat, hpat, List.mem_filter.mpr ⟨hmem, hg⟩⟩
  · intro hnone
    rw [_discover_files]
    have hflat : (FILE_PATTERNS.flatMap fun pat => listing.filter (globMatch pat)) = [] := by
      apply List.flatMap_eq_nil_iff.mpr
      intro pat hpat
      rw [List.filter_eq_nil_iff]
      intro name hname
      have hfalse := hnone name hname
      rw [matchesAny, List.any_eq_false] at hfalse
      exact hfalse pat hpat
    rw [hflat]
    simp

/-- Witness instantiating the amended C5 on a listing with no matching
name. -/
theorem C5_discovery_characterization_witness :
    ("zzz.csv" ∈ _discover_files ["zzz.csv"]
      ↔ ("zzz.csv" ∈ ["zzz.csv"] ∧ matchesAny "zzz.csv" = true)) ∧
    List.Sorted (· < ·) (_discover_files ["zzz.csv"]) ∧
    (_discover_files ["zzz.csv"]).Nodup ∧
    _discover_files ["zzz.csv"] = [] :=
  ⟨(C5_discovery_characterization ["zzz.csv"]).1 "zzz.csv",
    (C5_discovery_characterization ["zzz.csv"]).2.1,
    (C5_discovery_characterization ["zzz.csv"]).2.2.1,
    (C5_discovery_characterization ["zzz.csv"]).2.2.2 (by decide)⟩

/-- Counterexample to C10 as stated: an extra column named
`PRECISE_TIME` is not preserved: its cell value "hello" is gone from the
output row, whose `PRECISE_TIME` is the computed timestamp instead. -/
theorem C10_counterexample :
    _load_rows fileWithExtras = some withExtrasOut ∧
    (fileWithExtras.rows.getD 0 default).extras
      = [("PRECISE_TIME", "hello"), ("sample_idx", "7"), ("note", "keep")] ∧
    (withExtrasOut.getD 0 default).extras = [("note", "keep")] ∧
    ¬ ("PRECISE_TIME", "hello") ∈ (withExtrasOut.getD 0 default).extras ∧
    (withExtrasOut.getD 0 default).preciseTime = 1704067200 :=
  ⟨load_fileWithExtras, by decide, by decide, by decide, by decide⟩

/-- C10 (amended): for every loaded file, extra columns named
`sample_idx` or `samples_in_min` are overwritten with internal
bookkeeping values and dropped from the output; extras named
`PRECISE_TIME` or `SOURCE_FILE` are likewise overwritten by the computed
precise timestamp and source tag; every other extra column is preserved
unchanged, row by row. -/
theorem C10_bookkeeping_columns_dropped (f : SourceFile) (out : List OutRow)
    (hload : _load_rows f = some out) :
    out.length = (dropnaStartdate f.rows).length ∧
    (∀ i, ∀ kv : String × String,
      kv ∈ (out.getD i default).extras ↔
        (kv ∈ ((dropnaStartdate f.rows).getD i default).extras
          ∧ ¬ kv.1 ∈ overwrittenCols)) ∧
    (∀ i, ∀ kv : String × String,
      (kv.1 = "sample_idx" ∨ kv.1 = "samples_in_min") →
        ¬ kv ∈ (out.getD i default).extras) := by
  have hout := load_rows_some_inv f out hload
  have hlen : out.length = (dropnaStartdate f.rows).length := by
    rw [hout, cleanHz_length, reconstructRows_length]
  have hpos : ∀ i, (out.getD i default).extras
      = passthroughExtras (((dropnaStartdate f.rows).getD i default).extras) := by
    intro i
    have h1 : (out.map (fun r => r.extras)).getD i ((default : OutRow).extras)
        = (out.getD i default).extras := getD_map_proj _ out i default
    have h2 : ((dropnaStartdate f.rows).map (fun r => passthroughExtras r.extras)).getD i
          (passthroughExtras ((default : KeptRow).extras))
        = passthroughExtras (((dropnaStartdate f.rows).getD i default).extras) :=
      getD_map_proj _ (dropnaStartdate f.rows) i default
    have hdefs : ((default : OutRow).extras : List (String × String)) = [] := rfl
    have hdefs2 : passthroughExtras ((default : KeptRow).extras) = [] := rfl
    rw [hdefs] at h1
    rw [hdefs2] at h2
    rw [← h1, ← h2, hout, cleanHz_map_extras, reconstructRows_map_extras]
  refine ⟨hlen, ?_, ?_⟩
  · intro i kv
    rw [hpos i, passthroughExtras, List.mem_filter]
    constructor
    · rintro ⟨hmem, hb⟩
      refine ⟨hmem, fun hcon => ?_⟩
      rw [Bool.not_eq_eq_eq_not, Bool.not_true] at hb
      have hc : overwrittenCols.contains kv.1 = true := List.elem_iff.mpr hcon
      rw [hc] at hb
      exact Bool.noConfusion hb
    · rintro ⟨hmem, hni⟩
      refine ⟨hmem, ?_⟩
      rw [Bool.not_eq_eq_eq_not, Bool.not_true, Bool.eq_false_iff]
      intro hc
      exact hni (List.elem_iff.mp hc)
  · intro i kv hkv hcon
    rw [hpos i, passthroughExtras, List.mem_filter] at hcon
    have hb := hcon.2
    rw [Bool.not_eq_eq_eq_not, Bool.not_true] at hb
    have hctrue : overwrittenCols.contains kv.1 = true := by
      apply List.elem_iff.mpr
      rcases hkv with h | h <;> rw [h] <;> decide
    rw [hctrue] at hb
    exact Bool.noConfusion hb

/-- Witness instantiating C10 at `fileWithExtras`. -/
theorem C10_bookkeeping_columns_dropped_witness :
    _load_rows fileWithExtras = some withExtrasOut ∧
    (withExtrasOut.length = (dropnaStartdate fileWithExtras.rows).length ∧
      (∀ i, ∀ kv : String × String,
        kv ∈ (withExtrasOut.getD i default).extras ↔
          (kv ∈ ((dropnaStartdate fileWithExtras.rows).getD i default).extras
            ∧ ¬ kv.1 ∈ overwrittenCols)) ∧
      (∀ i, ∀ kv : String × String,
        (kv.1 = "sample_idx" ∨ kv.1 = "samples_in_min") →
          ¬ kv ∈ (withExtrasOut.getD i default).extras)) :=
  ⟨load_fileWithExtras,
    C10_bookkeeping_columns_dropped fileWithExtras withExtrasOut load_fileWithExtras⟩

/-- Counterexample to C2 as stated: on `fileLateFirst` the code
interpolates over the original row order `[50, missing, 60]`, filling the
gap with 55, while interpolation over the sequence ordered by
`PreciseTime` (`[missing, 60, 50]`) would fill it with the nearest value
60.  The two results differ, so the cleaner does not interpolate over the
`PreciseTime` order. -/
theorem C2_counterexample :
    _load_rows fileLateFirst = some lateFirstOut ∧
    cleanHzSpecOrdered (reconstructRows fileLateFirst.stem (dropnaStartdate fileLateFirst.rows))
      = lateFirstSpecOut ∧
    lateFirstOut.map (fun r => r.hz) = [some 50, some 55, some 60] ∧
    lateFirstSpecOut.map (fun r => r.hz) = [some 50, some 60, some 60] ∧
    lateFirstOut ≠ lateFirstSpecOut :=
  ⟨load_fileLateFirst, specOrdered_fileLateFirst, by decide, by decide, by decide⟩

/-- C2 (amended): the Signal Cleaner fills every missing frequency value
by linear interpolation over the record sequence in original row order
(not `PreciseTime` order): present values are kept; a missing value with
present values on both sides gets the linear interpolation between its
nearest present neighbours; missing values before the first present
value or after the last present value take that nearest present value;
and the row-order sequence `[50.0, missing, missing, 50.3]` becomes
`[50.0, 50.1, 50.2, 50.3]` (Scenario C). -/
theorem C2_interpolation_row_order :
    (∀ (f : SourceFile) (out : List OutRow), _load_rows f = some out →
      (∀ i v, ((dropnaStartdate f.rows).map fun r => r.hz).getD i none = some v →
        (out.map fun r => r.hz).getD i none = some v) ∧
      (∀ i a b va vb,
        ((dropnaStartdate f.rows).map fun r => r.hz).getD i none = none →
        a < i → i < b →
        ((dropnaStartdate f.rows).map fun r => r.hz).getD a none = some va →
        ((dropnaStartdate f.rows).map fun r => r.hz).getD b none = some vb →
        (∀ j, a < j → j < b →
          ((dropnaStartdate f.rows).map fun r => r.hz).getD j none = none) →
        (out.map fun r => r.hz).getD i none
          = some (va + (vb - va) * (((i : ℚ) - (a : ℚ)) / ((b : ℚ) - (a : ℚ))))) ∧
      (∀ i b vb, i < b →
        ((dropnaStartdate f.rows).map fun r => r.hz).getD b none = some vb →
        (∀ j, j < b → ((dropnaStartdate f.rows).map fun r => r.hz).getD j none = none) →
        (out.map fun r => r.hz).getD i none = some vb) ∧
      (∀ i a va, a < i → i < ((dropnaStartdate f.rows).map fun r => r.hz).length →
        ((dropnaStartdate f.rows).map fun r => r.hz).getD a none = some va →
        (∀ j, a < j → ((dropnaStartdate f.rows).map fun r => r.hz).getD j none = none) →
        (out.map fun r => r.hz).getD i none = some va)) ∧
    (_load_rows scenarioA = some scenarioAOut ∧
      scenarioA.rows.map (fun r => r.hz) = [some 50, none, none, some (503/10)] ∧
      scenarioAOut.map (fun r => r.hz)
        = [some 50, some (501/10), some (502/10), some (503/10)]) := by
  refine ⟨?_, load_scenarioA, by norm_num [scenarioA], by norm_num [scenarioAOut]⟩
  intro f out hload
  have hmap := load_rows_map_hz f out hload
  refine ⟨?_, ?_, ?_, ?_⟩
  · intro i v hv
    have hilen : i < ((dropnaStartdate f.rows).map fun r => r.hz).length :=
      getD_some_lt _ i v hv
    rw [hmap, interpolateLinearBoth_getD _ i hilen]
    exact interpolateAt_present _ i v hv
  · intro i a b va vb hi hai hib hva hvb hgap
    have hblen : b < ((dropnaStartdate f.rows).map fun r => r.hz).length :=
      getD_some_lt _ b vb hvb
    rw [hmap, interpolateLinearBoth_getD _ i (by omega)]
    exact interpolateAt_interior _ i a b va vb hi hai hib hva hvb hgap
  · intro i b vb hib hvb hnone
    have hblen : b < ((dropnaStartdate f.rows).map fun r => r.hz).length :=
      getD_some_lt _ b vb hvb
    rw [hmap, interpolateLinearBoth_getD _ i (by omega)]
    exact interpolateAt_leading _ i b vb hib hvb hnone
  · intro i a va hai hilen hva hnone
    rw [hmap, interpolateLinearBoth_getD _ i hilen]
    exact interpolateAt_trailing _ i a va hai hva hnone

/-- Witness instantiating the interior case of the amended C2 on
`fileLateFirst`: its kept frequency sequence is `[50, missing, 60]` and
the middle value is filled with the linear interpolation between
positions 0 and 2. -/
theorem C2_interpolation_row_order_witness :
    _load_rows fileLateFirst = some lateFirstOut ∧
    ((dropnaStartdate fileLateFirst.rows).map fun r => r.hz).getD 1 none = none ∧
    ((dropnaStartdate fileLateFirst.rows).map fun r => r.hz).getD 0 none = some 50 ∧
    ((dropnaStartdate fileLateFirst.rows).map fun r => r.hz).getD 2 none = some 60 ∧
    (lateFirstOut.map fun r => r.hz).getD 1 none
      = some (50 + (60 - 50) * (((1 : ℚ) - ((0 : ℕ) : ℚ)) / (((2 : ℕ) : ℚ) - ((0 : ℕ) : ℚ)))) :=
  ⟨load_fileLateFirst, by decide, by decide, by decide,
    (C2_interpolation_row_order.1 fileLateFirst lateFirstOut load_fileLateFirst).2.1
      1 0 2 50 60 (by decide) (by decide) (by decide) (by decide) (by decide)
      (fun j h1 h2 => by
        have hj : j = 1 := by omega
        rw [hj]
        rfl)⟩

/-- C6: if zero files are discovered, or no file of the directory yields
data, the pipeline returns an empty Dataset; the model is a total
function, so no exception is raised. -/
theorem C6_empty_dataset_terminal (dir : List SourceFile)
    (h : _discover_files (dir.map fun f => f.name) = []
      ∨ ∀ f ∈ dir, _load_rows f = none ∨ _load_rows f = some []) :
    load_all_data dir = [] := by
  rcases h with h | h
  · rw [load_all_data, h]
    rfl
  · rw [load_all_data]
    have hfm : ((_discover_files (dir.map fun f => f.name)).filterMap fun n =>
        match dir.find? (fun f => f.name == n) with
        | none => none
        | some f =>
          match _load_rows f with
          | none => none
          | some rows => if rows.isEmpty then none else some rows) = [] := by
      rw [List.filterMap_eq_nil_iff]
      intro n hn
      cases hfind : dir.find? (fun f => f.name == n) with
      | none => rfl
      | some f =>
        have hf : f ∈ dir := List.mem_of_find?_eq_some hfind
        rcases h f hf with hl | hl <;> simp [hl]
    rw [hfm]
    rfl

/-- Witness instantiating C6 on the empty directory. -/
theorem C6_empty_dataset_terminal_witness :
    (∀ f ∈ ([] : List SourceFile), _load_rows f = none ∨ _load_rows f = some []) ∧
    load_all_data [] = [] :=
  ⟨by simp, C6_empty_dataset_terminal [] (Or.inr (by simp))⟩

/-- Counterexample to C4 as stated: a file with an unrecognized
extension is skipped with an empty diagnostic list (the code returns
`None` before printing anything), while the two other file-fatal cases
do emit a diagnostic. -/
theorem C4_counterexample :
    _load_one_file fileBadExt = (none, []) ∧
    (_load_one_file fileMissingVpm).1 = none ∧
    (_load_one_file fileMissingVpm).2 ≠ [] ∧
    (_load_one_file fileNoTimestamp).1 = none ∧
    (_load_one_file fileNoTimestamp).2 ≠ [] := by
  refine ⟨by decide, by decide, by decide, by decide, by decide⟩

/-- C4 (amended): a file with an unrecognized extension, a missing
required column, or zero parseable timestamps is skipped entirely,
contributing zero rows; a diagnostic is emitted in the missing-column
and zero-parseable-timestamp cases, but the unrecognized-extension case
is skipped silently; the pipeline continues with the remaining files,
so one valid file plus one unsupported-extension file yield exactly the
valid file's rows, tagged with that file's stem. -/
theorem C4_file_fatal_skips :
    (∀ f : SourceFile, f.format = FileFormat.other → _load_one_file f = (none, [])) ∧
    (∀ f : SourceFile, f.format ≠ FileFormat.other → (missingCols f).isEmpty = false →
      (_load_one_file f).1 = none ∧ (_load_one_file f).2 ≠ []) ∧
    (∀ f : SourceFile, f.format ≠ FileFormat.other → (missingCols f).isEmpty = true →
      (dropnaStartdate f.rows).isEmpty = true →
      (_load_one_file f).1 = none ∧ (_load_one_file f).2 ≠ []) ∧
    load_all_data [scenarioA, fileBadExt] = scenarioAOut ∧
    scenarioAOut.all (fun r => r.sourceFile == "Bhadla Oscillation Data_1") = true := by
  refine ⟨?_, ?_, ?_, ?_, by decide⟩
  · intro f h
    rw [_load_one_file, if_pos h]
  · intro f hfmt hmiss
    rw [_load_one_file, if_neg hfmt]
    simp only [hmiss, Bool.not_false, if_true]
    exact ⟨trivial, by simp⟩
  · intro f hfmt hcols hkept
    rw [_load_one_file, if_neg hfmt]
    simp only [hcols, Bool.not_true, Bool.false_eq_true, if_false, hkept, if_true]
    exact ⟨trivial, by simp⟩
  · have hflat : (FILE_PATTERNS.flatMap fun pat =>
        ([scenarioA, fileBadExt].map fun f => f.name).filter (globMatch pat))
        = [scenarioA.name] := by decide
    have hd : _discover_files ([scenarioA, fileBadExt].map fun f => f.name)
        = [scenarioA.name] := by
      rw [_discover_files, hflat]
      simp
    have hfind : [scenarioA, fileBadExt].find? (fun f => f.name == scenarioA.name)
        = some scenarioA := rfl
    rw [load_all_data, hd]
    simp only [List.filterMap_cons, List.filterMap_nil, hfind, load_scenarioA]
    simp [scenarioAOut]

/-- Witness instantiating the amended C4 at the unsupported-extension
file. -/
theorem C4_file_fatal_skips_witness :
    fileBadExt.format = FileFormat.other ∧
    _load_one_file fileBadExt = (none, []) :=
  ⟨by decide, C4_file_fatal_skips.1 fileBadExt (by decide)⟩

theorem find?_name_eq_of_perm (dir1 dir2 : List SourceFile) (hperm : dir1.Perm dir2)
    (hnd : (dir1.map fun f => f.name).Nodup) (n : String) :
    dir1.find? (fun f => f.name == n) = dir2.find? (fun f => f.name == n) := by
  have hinj := List.inj_on_of_nodup_map hnd
  cases h1 : dir1.find? (fun f => f.name == n) with
  | none =>
    cases h2 : dir2.find? (fun f => f.name == n) with
    | none => rfl
    | some b =>
      have hbm : b ∈ dir1 := hperm.mem_iff.mpr (List.mem_of_find?_eq_some h2)
      exact absurd (List.find?_some h2) (List.find?_eq_none.mp h1 b hbm)
  | some a =>
    cases h2 : dir2.find? (fun f => f.name == n) with
    | none =>
      have ham : a ∈ dir2 := hperm.mem_iff.mp (List.mem_of_find?_eq_some h1)
      exact absurd (List.find?_some h1) (List.find?_eq_none.mp h2 a ham)
    | some b =>
      have ham : a ∈ dir1 := List.mem_of_find?_eq_some h1
      have hbm : b ∈ dir1 := hperm.mem_iff.mpr (List.mem_of_find?_eq_some h2)
      have hpa := List.find?_some h1
      have hpb := List.find?_some h2
      rw [beq_iff_eq] at hpa hpb
      have hab : a = b := hinj ham hbm (by rw [hpa, hpb])
      rw [hab]

/-- C8: the pipeline is deterministic in its inputs: two runs over the
same directory contents (the same files, enumerated in possibly
different orders, with distinct filenames) produce identical Datasets,
column for column. -/
theorem C8_pipeline_deterministic (dir1 dir2 : List SourceFile)
    (hperm : dir1.Perm dir2) (hnd : (dir1.map fun f => f.name).Nodup) :
    load_all_data dir1 = load_all_data dir2 := by
  have hdisc : _discover_files (dir1.map fun f => f.name)
      = _discover_files (dir2.map fun f => f.name) := by
    rw [_discover_files, _discover_files]
    congr 1
    apply Finset.ext
    intro x
    rw [List.mem_toFinset, List.mem_toFinset, List.mem_flatMap, List.mem_flatMap]
    constructor
    · rintro ⟨pat, hpat, hx⟩
      rw [List.mem_filter] at hx
      exact ⟨pat, hpat, List.mem_filter.mpr ⟨(hperm.map _).mem_iff.mp hx.1, hx.2⟩⟩
    · rintro ⟨pat, hpat, hx⟩
      rw [List.mem_filter] at hx
      exact ⟨pat, hpat, List.mem_filter.mpr ⟨(hperm.map _).mem_iff.mpr hx.1, hx.2⟩⟩
  have hfun : (fun n =>
      match dir1.find? (fun f => f.name == n) with
      | none => none
      | some f =>
        match _load_rows f with
        | none => none
        | some rows => if rows.isEmpty then none else some rows)
      = (fun n =>
      match dir2.find? (fun f => f.name == n) with
      | none => none
      | some f =>
        match _load_rows f with
        | none => none
        | some rows => if rows.isEmpty then none else some rows) := by
    funext n
    rw [find?_name_eq_of_perm dir1 dir2 hperm hnd n]
  rw [load_all_data, load_all_data, hdisc, hfun]

/-- Witness instantiating C8 on a two-file directory enumerated in both
orders. -/
theorem C8_pipeline_deterministic_witness :
    ([scenarioA, fileBadExt] : List SourceFile).Perm [fileBadExt, scenarioA] ∧
    ([scenarioA, fileBadExt].map fun f => f.name).Nodup ∧
    load_all_data [scenarioA, fileBadExt] = load_all_data [fileBadExt, scenarioA] :=
  ⟨List.Perm.swap fileBadExt scenarioA [], by decide,
    C8_pipeline_deterministic [scenarioA, fileBadExt] [fileBadExt, scenarioA]
      (List.Perm.swap fileBadExt scenarioA []) (by decide)⟩

/-- Witness instantiating C1 at the Scenario A file (one coarse
timestamp, four rows): its offsets evaluate to 0 s, 15 s, 30 s, 45 s. -/
theorem C1_timestamp_group_offsets_witness :
    scenarioA.format ≠ FileFormat.other ∧
    (missingCols scenarioA).isEmpty = true ∧
    (dropnaStartdate scenarioA.rows).isEmpty = false ∧
    (∃ out, _load_rows scenarioA = some out ∧
      groupOffsets out 1704067200
        = (List.range (groupRows out 1704067200).length).map
            (fun j : ℕ => (j : ℚ) / ((groupRows out 1704067200).length : ℚ) * 60) ∧
      List.Pairwise (· < ·) (groupOffsets out 1704067200) ∧
      ∀ x ∈ groupOffsets out 1704067200, 0 ≤ x ∧ x < 60) ∧
    groupOffsets scenarioAOut 1704067200 = [0, 15, 30, 45] :=
  ⟨by decide, by decide, by decide,
    C1_timestamp_group_offsets scenarioA 1704067200 (by decide) (by decide) (by decide),
    by norm_num [groupOffsets, groupRows, scenarioAOut, List.filter, beq_iff_eq]⟩

end Dash
